import Mathlib

/-!
Verification of the BushSEC_Bed_Toolkit (V0.2.1) against its specification.

Each Python function relevant to the checked claims is shallowly embedded as
an executable Lean definition: bytes are `Nat` values below 256, Python
`bytes`/`list` become `List Nat`, dictionaries become association lists in
insertion order, raised exceptions become `Except` errors, and stateful
methods become explicit state-passing functions that additionally return a
trace of the observable events they perform (status changes, OS calls,
cleanup calls).

Layout: all definitions first, then the theorems.
-/

/-- Python exception values raised by the toolkit (error_handler.py defines
`OperationError`, `PluginError`, `ValidationError`; `typeError` stands for
Python's built-in TypeError). Each carries its message string. -/
inductive PyExc where
  | operationError (msg : String)
  | pluginError (msg : String)
  | validationError (msg : String)
  | typeError (msg : String)
  | other (msg : String)
deriving DecidableEq, Repr

/-! ## Obfuscator: XOR transforms (tools/obfuscator.py) -/

namespace Obfuscator

/-- `Obfuscator._xor_encrypt` body, with the randomly drawn single-byte key
made an explicit parameter: `bytes(b ^ key for b in data)`. -/
def xor_encrypt (key : Nat) (data : List Nat) : List Nat :=
  data.map (fun b => b ^^^ key)

/-- `Obfuscator._custom_xor_encrypt` loop, with the randomly drawn 4-byte key
made an explicit parameter.  `i` is the running index of the Python
`enumerate`: each output byte is `b ^ key[i % len(key)]`. -/
def custom_xor_loop (key : List Nat) (i : Nat) : List Nat → List Nat
  | [] => []
  | b :: rest => (b ^^^ key.getD (i % key.length) 0) :: custom_xor_loop key (i + 1) rest

/-- `Obfuscator._custom_xor_encrypt` starting at index 0. -/
def custom_xor_encrypt (key : List Nat) (data : List Nat) : List Nat :=
  custom_xor_loop key 0 data

/-- Python parallel assignment `S[a], S[b] = S[b], S[a]`: the right-hand pair
is read from the original list, then both cells are written. -/
def rc4Swap (S : List Nat) (a b : Nat) : List Nat :=
  let x := S.getD a 0
  let y := S.getD b 0
  (S.set a y).set b x

/-- `Obfuscator._rc4_encrypt` key-scheduling loop (source form): starting
from `S = list(range(256))`, `j = 0`, for `i in range(256)`:
`j = (j + S[i] + key[i % len(key)]) % 256` then swap `S[i], S[j]`. -/
def ksa (key : List Nat) : List Nat × Nat :=
  (List.range 256).foldl
    (fun p i =>
      let S := p.1
      let j := p.2
      let j2 := (j + S.getD i 0 + key.getD (i % key.length) 0) % 256
      (rc4Swap S i j2, j2))
    (List.range 256, 0)

/-- `Obfuscator._rc4_encrypt` encryption loop (source form): state `(S, i, j)`,
for each input byte: `i = (i+1) % 256`, `j = (j+S[i]) % 256`, swap,
`k = S[(S[i]+S[j]) % 256]`, output `b ^ k`. -/
def rc4Prga (S : List Nat) (i j : Nat) : List Nat → List Nat
  | [] => []
  | b :: rest =>
      let i2 := (i + 1) % 256
      let j2 := (j + S.getD i2 0) % 256
      let S2 := rc4Swap S i2 j2
      let k := S2.getD ((S2.getD i2 0 + S2.getD j2 0) % 256) 0
      (b ^^^ k) :: rc4Prga S2 i2 j2 rest

/-- `Obfuscator._rc4_encrypt` with the randomly drawn 16-byte key made an
explicit parameter: KSA followed by the encryption loop. -/
def rc4_encrypt (key : List Nat) (data : List Nat) : List Nat :=
  rc4Prga (ksa key).1 0 0 data

/-- Independent RC4 reference, key scheduling, written from the spec's words
for a 16-byte key: `n` remaining steps at index `i`;
`j = (j + S[i] + key[i mod 16]) mod 256`, swap `S[i], S[j]`. -/
def rc4RefKsaGo (key : List Nat) : List Nat → Nat → Nat → Nat → List Nat
  | S, _, _, 0 => S
  | S, j, i, n + 1 =>
      let j2 := (j + S.getD i 0 + key.getD (i % 16) 0) % 256
      rc4RefKsaGo key (rc4Swap S i j2) j2 (i + 1) n

/-- Independent RC4 reference: the scheduled S-box after 256 steps from
`S = [0..255]`, `j = 0`, `i = 0`. -/
def rc4RefKsa (key : List Nat) : List Nat :=
  rc4RefKsaGo key (List.range 256) 0 0 256

/-- Independent RC4 reference, pseudo-random generation: the next `n`
keystream bytes from state `(S, i, j)`:  `i = (i+1) mod 256`,
`j = (j+S[i]) mod 256`, swap, keystream byte `S[(S[i]+S[j]) mod 256]`. -/
def rc4RefKeystream : List Nat → Nat → Nat → Nat → List Nat
  | _, _, _, 0 => []
  | S, i, j, n + 1 =>
      let i2 := (i + 1) % 256
      let j2 := (j + S.getD i2 0) % 256
      let S2 := rc4Swap S i2 j2
      S2.getD ((S2.getD i2 0 + S2.getD j2 0) % 256) 0 :: rc4RefKeystream S2 i2 j2 n

/-- Independent RC4 reference cipher: byte `n` of the output is byte `n` of
the plaintext XORed with keystream byte `n`. -/
def rc4_reference (key : List Nat) (data : List Nat) : List Nat :=
  List.zipWith (fun b k => b ^^^ k) data (rc4RefKeystream (rc4RefKsa key) 0 0 data.length)

end Obfuscator

/-! ## PE injector (tools/pe_injector.py) -/

namespace PEInjector

/-- Little-endian byte decomposition: `leBytes n v` is the list of `n` bytes
encoding `v` (least significant first), each byte reduced mod 256. -/
def leBytes : Nat → Nat → List Nat
  | 0, _ => []
  | n + 1, v => (v % 256) :: leBytes n (v / 256)

/-- Python `int.to_bytes(4, byteorder='little', signed=True)`: defined for
`-2^31 ≤ x < 2^31` (otherwise Python raises OverflowError, modelled as
`none`); in range it yields the 4 little-endian bytes of `x mod 2^32`. -/
def toBytes4LESigned (x : Int) : Option (List Nat) :=
  if -(2 ^ 31) ≤ x ∧ x < 2 ^ 31 then
    some (leBytes 4 (x % (2 ^ 32)).toNat)
  else
    none

/-- `PEInjector._create_return_jump`: `relative = to - (from + 5)`;
returns `b'\xE9'` followed by the little-endian signed 32-bit encoding. -/
def create_return_jump (from_addr to_addr : Int) : Option (List Nat) :=
  (toBytes4LESigned (to_addr - (from_addr + 5))).map (fun bs => 0xE9 :: bs)

/-- A PE section as `_find_code_cave` uses it: virtual address,
characteristics flags, and raw data bytes. -/
structure PESection where
  virtualAddress : Nat
  characteristics : Nat
  data : List Nat
deriving Repr

/-- `section.Characteristics & 0x20000000` (IMAGE_SCN_MEM_EXECUTE). -/
def isExecutable (s : PESection) : Bool :=
  s.characteristics &&& 0x20000000 != 0

/-- `data[pos] in (0, 0xCC)`: a code-cave byte is 0 or int3. -/
def isCaveByte (b : Nat) : Bool :=
  b == 0 || b == 0xCC

/-- The inner `while` of `_find_code_cave`: number of consecutive cave bytes
at the head of `data`, capped at `cap` (the loop stops as soon as
`pos - cave_start` reaches the requested size). -/
def cappedRun : Nat → List Nat → Nat
  | 0, _ => 0
  | _ + 1, [] => 0
  | cap + 1, b :: rest => if isCaveByte b then cappedRun cap rest + 1 else 0

/-- The outer `while` of `_find_code_cave` over one section's data. `pos` is
the absolute position of the head of `data` in the section.  At a cave byte
the inner loop advances by `r = cappedRun size` bytes; if `r ≥ size` the cave
`(cave_start, r)` is returned, otherwise scanning resumes at `pos + r + 1`
(the byte at `pos + r` is not a cave byte, so only non-cave bytes are
skipped, exactly as the Python `pos += 1` after the inner loop). -/
def scanCave (size : Nat) : List Nat → Nat → Option (Nat × Nat)
  | [], _ => none
  | b :: rest, pos =>
      if isCaveByte b then
        let r := cappedRun size (b :: rest)
        if size ≤ r then some (pos, r)
        else scanCave size (rest.drop r) (pos + r + 1)
      else scanCave size rest (pos + 1)
termination_by l _ => l.length
decreasing_by
  · simp only [List.length_drop, List.length_cons]; omega
  · simp only [List.length_cons]; omega

/-- Specification-side run predicate: a contiguous run of at least `size`
cave bytes starts at position `pos` of `data`. -/
def hasRunAt (data : List Nat) (size pos : Nat) : Prop :=
  pos + size ≤ data.length ∧ ∀ i < size, isCaveByte (data.getD (pos + i) 1)

instance (data : List Nat) (size pos : Nat) : Decidable (hasRunAt data size pos) := by
  unfold hasRunAt; infer_instance

/-- Specification-side finder: the least position of `data` starting a run of
at least `size` cave bytes (structural recursion, evaluable by `decide`). -/
def firstRunPos (size : Nat) : List Nat → Option Nat
  | [] => none
  | b :: rest =>
      if hasRunAt (b :: rest) size 0 then some 0
      else (firstRunPos size rest).map (· + 1)

/-- `PEInjector._find_code_cave`: scans the sections in order, skipping
non-executable ones, and returns `(VirtualAddress + cave_start, length)` for
the first cave found; `none` when every section is exhausted
(`return None, None`). -/
def find_code_cave (sections : List PESection) (size : Nat) : Option (Nat × Nat) :=
  match sections with
  | [] => none
  | s :: rest =>
      if isExecutable s then
        match scanCave size s.data 0 with
        | some (start, len) => some (s.virtualAddress + start, len)
        | none => find_code_cave rest size
      else find_code_cave rest size

/-- Specification-side section scan, phrased with `firstRunPos`. -/
def find_code_cave_spec (sections : List PESection) (size : Nat) : Option (Nat × Nat) :=
  match sections with
  | [] => none
  | s :: rest =>
      if isExecutable s then
        match firstRunPos size s.data with
        | some p => some (s.virtualAddress + p, size)
        | none => find_code_cave_spec rest size
      else find_code_cave_spec rest size

/-- The cave-search step of `PEInjector._inject_code_cave` (lines 252-254):
`_find_code_cave(pe, len(shellcode) + 5)`; on `None` (or a falsy 0 address)
it raises `OperationError("未找到足够大的代码洞")`.  The surrounding
`try/except` of `_inject_code_cave` catches that exception, logs it and
makes the method return `False`. -/
def inject_code_cave_find_step (sections : List PESection) (shellcodeLen : Nat) :
    Except PyExc (Nat × Nat) :=
  match find_code_cave sections (shellcodeLen + 5) with
  | none => .error (.operationError "未找到足够大的代码洞")
  | some (rva, len) =>
      if rva = 0 then .error (.operationError "未找到足够大的代码洞")
      else .ok (rva, len)

/-- `PEInjector._inject_code_cave` outcome when the cave search fails: the
`except` clause converts the raised exception into `return False`. -/
def inject_code_cave_result_of_find (sections : List PESection) (shellcodeLen : Nat)
    (restOfBody : Except PyExc Bool) : Bool :=
  match inject_code_cave_find_step sections shellcodeLen with
  | .error _ => false
  | .ok _ => match restOfBody with
    | .ok b => b
    | .error _ => false

/-- Concrete test section: an executable section (VirtualAddress 0x1000)
whose data is a run of 40 zero bytes surrounded by non-zero bytes. -/
def cave40Section : PESection :=
  { virtualAddress := 0x1000,
    characteristics := 0x60000020,
    data := List.replicate 3 0x90 ++ List.replicate 40 0 ++ List.replicate 3 0x90 }

end PEInjector

/-! ## ErrorStats.get_recent_errors (utils/error_handler.py) -/

namespace ErrorStats

/-- Python negative-index slice `l[-limit:]` for a non-negative `limit`: for
`limit = 0` this is `l[0:]`, the whole list; otherwise the slice starts at
`max(len(l) - limit, 0)` (natural subtraction already truncates at 0). -/
def pySliceFromNegEnd {α : Type} (l : List α) (limit : Nat) : List α :=
  if limit = 0 then l else l.drop (l.length - limit)

/-- `ErrorStats.get_recent_errors(limit)` = `self.error_history[-limit:]`. -/
def get_recent_errors {α : Type} (history : List α) (limit : Nat) : List α :=
  pySliceFromNegEnd history limit

end ErrorStats

/-! ## ToolBase.execute (core/tool_base.py) -/

namespace ToolBase

/-- The `ToolStatus` enum. -/
inductive ToolStatus where
  | uninitialized
  | initializing
  | ready
  | running
  | paused
  | error
  | cleaning
  | cleaned
deriving DecidableEq, Repr

/-- Python `str()` of a `ToolStatus` member, as an f-string renders it. -/
def ToolStatus.pyStr : ToolStatus → String
  | .uninitialized => "ToolStatus.UNINITIALIZED"
  | .initializing => "ToolStatus.INITIALIZING"
  | .ready => "ToolStatus.READY"
  | .running => "ToolStatus.RUNNING"
  | .paused => "ToolStatus.PAUSED"
  | .error => "ToolStatus.ERROR"
  | .cleaning => "ToolStatus.CLEANING"
  | .cleaned => "ToolStatus.CLEANED"

/-- The mutable tool state that `execute` reads and writes. -/
structure ToolState where
  status : ToolStatus
  lastError : Option PyExc
deriving DecidableEq, Repr

/-- Events `execute` performs, in order. -/
inductive ExecEvent where
  | setStatus (s : ToolStatus)
  | progressStart
  | invokeExec
deriving DecidableEq, Repr

/-- The message of the guard's `OperationError`:
`f"工具 {self.name} 状态不正确: {self.status}"`. -/
def executeGuardMsg (name : String) (st : ToolStatus) : String :=
  "工具 " ++ name ++ " 状态不正确: " ++ st.pyStr

/-- `ToolBase.execute` body (lines 227-245), with `_execute`'s outcome made an
explicit parameter `res`.  Returns the result (raised exceptions as
`Except.error`), the new state, and the trace of performed events.  The
surrounding `@error_handler` decorator is not part of this body: it would
catch the re-raised exception and turn it into an error dictionary. -/
def execute {α : Type} (name : String) (st : ToolState) (res : Except PyExc α) :
    Except PyExc α × ToolState × List ExecEvent :=
  if st.status ≠ ToolStatus.ready then
    (.error (.operationError (executeGuardMsg name st.status)), st, [])
  else
    match res with
    | .ok v =>
        (.ok v, { st with status := .ready },
         [.setStatus .running, .progressStart, .invokeExec, .setStatus .ready])
    | .error e =>
        (.error e, { status := .error, lastError := some e },
         [.setStatus .running, .progressStart, .invokeExec, .setStatus .error])

end ToolBase

/-! ## PluginManager.unload_plugin (plugins/plugin_manager.py) -/

namespace PluginManager

/-- The manager state `unload_plugin` touches: the plugin registry (names of
loaded plugins, unique, in insertion order), the metadata cache
(name ↦ names of the plugin's declared dependencies, i.e. the keys of
`metadata.dependencies`), and the file-watch table (names with a recorded
mtime). -/
structure PMState where
  plugins : List String
  metadataCache : List (String × List String)
  fileWatchers : List String
deriving DecidableEq, Repr

/-- Events `unload_plugin` performs. -/
inductive PMEvent where
  | cleanupCall (name : String)
  | logUnload (name : String) (ok : Bool)
deriving DecidableEq, Repr

/-- `PluginManager._find_dependent_plugins`: every cached metadata entry
whose dependency dict contains `plugin_name` as a key. -/
def find_dependent_plugins (st : PMState) (pluginName : String) : List String :=
  (st.metadataCache.filter (fun p => p.2.contains pluginName)).map Prod.fst

/-- The inner `PluginError` message blocking an unload:
`f"无法卸载插件 {plugin_name}，以下插件依赖它: {', '.join(dependents)}"`. -/
def blockedMsg (pluginName : String) (dependents : List String) : String :=
  "无法卸载插件 " ++ pluginName ++ "，以下插件依赖它: " ++ String.intercalate ", " dependents

/-- The wrapping `PluginError` message of `unload_plugin`'s `except` clause:
`f"卸载插件 {plugin_name} 失败: {str(e)}"`. -/
def unloadFailMsg (pluginName : String) (inner : String) : String :=
  "卸载插件 " ++ pluginName ++ " 失败: " ++ inner

/-- `PluginManager.unload_plugin` (lines 192-215), with the outcome of the
plugin's own `cleanup()` call made an explicit parameter `cleanupRes`.
If the plugin is not loaded, returns `False` with no effect.  If some cached
metadata lists it as a dependency, the inner `PluginError` naming the
dependents is caught, logged, and re-raised wrapped.  Otherwise `cleanup` is
called and the plugin is removed from registry, metadata cache and
file-watch table. -/
def unload_plugin (st : PMState) (pluginName : String) (cleanupRes : Except PyExc Unit) :
    Except PyExc Bool × PMState × List PMEvent :=
  if st.plugins.contains pluginName then
    let dependents := find_dependent_plugins st pluginName
    if dependents.isEmpty then
      match cleanupRes with
      | .ok _ =>
          -- the three `del`s: a dict key occurs once, so deleting it is
          -- dropping every entry carrying that name
          (.ok true,
           { plugins := st.plugins.filter (fun n => !(n == pluginName)),
             metadataCache := st.metadataCache.filter (fun p => !(p.1 == pluginName)),
             fileWatchers := st.fileWatchers.filter (fun n => !(n == pluginName)) },
           [.cleanupCall pluginName, .logUnload pluginName true])
      | .error e =>
          (.error (.pluginError (unloadFailMsg pluginName (pyStrOfExc e))), st,
           [.cleanupCall pluginName, .logUnload pluginName false])
    else
      (.error (.pluginError (unloadFailMsg pluginName (blockedMsg pluginName dependents))),
       st, [.logUnload pluginName false])
  else
    (.ok false, st, [])
where
  /-- Python `str(e)` on the toolkit's exceptions: the message. -/
  pyStrOfExc : PyExc → String
    | .operationError m => m
    | .pluginError m => m
    | .validationError m => m
    | .typeError m => m
    | .other m => m

end PluginManager

/-! ## ProcessInjector.inject (tools/process_injector.py) -/

namespace ProcessInjector

/-- OS-visible calls `inject` performs after a successful `OpenProcess`. -/
inductive WinEvent where
  | virtualAllocEx (addr : Nat)
  | writeProcessMemory (ok : Bool)
  | dispatchMethod (ok : Bool)
  | protectMemory
  | closeHandle (h : Nat)
deriving DecidableEq, Repr

/-- The configuration flags `inject` consults. -/
structure InjectCfg where
  encryptionEnabled : Bool
  protectMemory : Bool
deriving DecidableEq, Repr

/-- Outcomes of the fallible steps inside the `try` block, made explicit:
the result of `_encrypt_shellcode`, the address `VirtualAllocEx` returns
(0 on failure), `WriteProcessMemory`'s success, the dispatched injection
method's boolean, and the outcome of `_protect_memory`. -/
structure InjectOutcomes where
  encryptRes : Except PyExc Unit
  allocAddr : Nat
  writeOk : Bool
  methodSuccess : Bool
  protectRes : Except PyExc Unit
deriving Repr

/-- The body of the inner `try` of `inject` (lines 170-228): each failing
step raises; each OS call is recorded in the trace. -/
def injectTryBody (cfg : InjectCfg) (out : InjectOutcomes) :
    Except PyExc Bool × List WinEvent :=
  match (if cfg.encryptionEnabled then out.encryptRes else .ok ()) with
  | .error e => (.error e, [])
  | .ok _ =>
      if out.allocAddr = 0 then
        (.error (.operationError "内存分配失败"), [.virtualAllocEx 0])
      else if !out.writeOk then
        (.error (.operationError "写入内存失败"),
         [.virtualAllocEx out.allocAddr, .writeProcessMemory false])
      else if !out.methodSuccess then
        (.error (.operationError "注入失败"),
         [.virtualAllocEx out.allocAddr, .writeProcessMemory true, .dispatchMethod false])
      else
        match (if cfg.protectMemory then out.protectRes else .ok ()) with
        | .error e =>
            (.error e,
             [.virtualAllocEx out.allocAddr, .writeProcessMemory true,
              .dispatchMethod true] ++ (if cfg.protectMemory then [.protectMemory] else []))
        | .ok _ =>
            (.ok true,
             [.virtualAllocEx out.allocAddr, .writeProcessMemory true,
              .dispatchMethod true] ++ (if cfg.protectMemory then [.protectMemory] else []))

/-- `inject` from the `OpenProcess` call on (lines 160-231), with the handle
`h` that `OpenProcess` returned made an explicit parameter.  A null handle
raises before the `try/finally` is entered, so no `CloseHandle` happens; a
non-null handle enters `try ... finally CloseHandle(h)`, so the close event
is appended to the trace on both the success and every failure path, before
the result or exception propagates. -/
def injectFromOpen (h : Nat) (pid : Nat) (cfg : InjectCfg) (out : InjectOutcomes) :
    Except PyExc Bool × List WinEvent :=
  if h = 0 then
    (.error (.operationError ("无法打开进程: " ++ toString pid)), [])
  else
    let body := injectTryBody cfg out
    (body.1, body.2 ++ [.closeHandle h])

end ProcessInjector

/-! ## ConfigManager and ConfigValidator (config/config_manager.py) -/

namespace Config

/-- A Python/JSON value as the configuration system manipulates it.
`float` carries no payload: the toolkit's configurations hold no float
values, only the type tag is needed for `isinstance` checks. -/
inductive PyVal where
  | str (s : String)
  | int (n : Int)
  | bool (b : Bool)
  | float
  | list (l : List PyVal)
  | dict (d : List (String × PyVal))
deriving Repr

/-- Python `==` on the scalar values the toolkit actually compares
(version strings, and schema `values` lists, which hold only strings).
Following Python, `True == 1` and `False == 0` across bool/int; values of
different scalar types are unequal.  Container comparison never occurs in
the toolkit's configuration code and is not modelled (returns `false`). -/
def pyEqScalar : PyVal → PyVal → Bool
  | .str a, .str b => a == b
  | .int a, .int b => a == b
  | .bool a, .bool b => a == b
  | .bool a, .int b => (if a then (1 : Int) else 0) == b
  | .int a, .bool b => a == (if b then (1 : Int) else 0)
  | _, _ => false

/-- Python `value in valid_values` for a list. -/
def pyMem (v : PyVal) (vals : List PyVal) : Bool :=
  vals.any (fun w => pyEqScalar v w)

/-- `key in d` for a Python dict modelled as an association list. -/
def containsKey (d : List (String × PyVal)) (k : String) : Bool :=
  d.any (fun p => p.1 == k)

/-- `d[k]` lookup returning `none` when absent: the value of the first
(the only, keys being unique) entry with key `k`. -/
def lookupPy : List (String × PyVal) → String → Option PyVal
  | [], _ => none
  | p :: rest, k => if p.1 == k then some p.2 else lookupPy rest k

/-- `d.get(k, default)`. -/
def pyGet (d : List (String × PyVal)) (k : String) (dflt : PyVal) : PyVal :=
  (lookupPy d k).getD dflt

/-- `d[k] = v`: replace in place when the key exists (Python dicts keep the
key's insertion position), else append. -/
def pySetItem (d : List (String × PyVal)) (k : String) (v : PyVal) : List (String × PyVal) :=
  if containsKey d k then d.map (fun p => if p.1 == k then (p.1, v) else p)
  else d ++ [(k, v)]

/-- `ConfigValidator._validate_type` / `ToolBase._validate_type` type check:
`isinstance(value, type_map.get(expected_type, object))`.  In Python `bool`
is a subclass of `int`, so a boolean passes the `"int"` check; an unknown
type name maps to `object`, which everything satisfies. -/
def typeCheck (v : PyVal) (expected : String) : Bool :=
  match expected with
  | "str" => match v with | .str _ => true | _ => false
  | "int" => match v with | .int _ => true | .bool _ => true | _ => false
  | "float" => match v with | .float => true | _ => false
  | "bool" => match v with | .bool _ => true | _ => false
  | "list" => match v with | .list _ => true | _ => false
  | "dict" => match v with | .dict _ => true | _ => false
  | _ => true

/-- A value of the schema dictionary: either a nested spec dict (possible
`type` / `values` / `schema` / `required` keys) or a bare type name. -/
inductive SchemaEntry where
  | spec (typeName : Option String) (values : Option (List PyVal))
      (children : Option (List (String × SchemaEntry))) (required : Bool)
  | plain (typeName : String)

/-- `_validate_type` as an exception-raising step. -/
def validateTypeE (v : PyVal) (ty : String) (key : String) : Except PyExc Unit :=
  if typeCheck v ty then .ok ()
  else .error (.validationError ("配置项 " ++ key ++ " 类型错误，期望 " ++ ty))

/-- `_validate_values` as an exception-raising step. -/
def validateValuesE (v : PyVal) (vals : List PyVal) (key : String) : Except PyExc Unit :=
  if pyMem v vals then .ok ()
  else .error (.validationError ("配置项 " ++ key ++ " 的值必须是以下之一"))

/-- `ConfigValidator._validate_dict`: iterate the schema's entries in order;
a missing key raises only for a required spec entry; a present value is
checked for `type`, then `values`, then recursively against a nested
`schema`.  Recursing into a nested schema requires the value to support
`key not in value`; a non-dict value would make Python raise there (the
repository's schema always guards nested schemas with `"type": "dict"`, so
that branch is unreachable), modelled as a TypeError.  `fuel` bounds only
the nesting depth: any fuel larger than the schema's depth (the
repository's schema has depth 3) gives exactly the Python semantics. -/
def validateDict : Nat → List (String × SchemaEntry) → List (String × PyVal) →
    Except PyExc Unit
  | 0, _, _ => .error (.other "schema nesting deeper than available fuel")
  | fuel + 1, entries, config =>
      entries.forM (fun p =>
        let key := p.1
        match lookupPy config key with
        | none =>
            match p.2 with
            | .spec _ _ _ required =>
                if required then .error (.validationError ("缺少必需的配置项: " ++ key))
                else .ok ()
            | .plain _ => .ok ()
        | some v =>
            match p.2 with
            | .plain ty => validateTypeE v ty key
            | .spec t vals children _ => do
                (match t with | some ty => validateTypeE v ty key | none => pure ())
                (match vals with | some vv => validateValuesE v vv key | none => pure ())
                (match children with
                 | some sch =>
                     match v with
                     | .dict d => validateDict fuel sch d
                     | _ => .error (.typeError "argument is not a container")
                 | none => pure ()))

/-- `ConfigValidator.validate`: `True` on success, `False` when a
`ValidationError` was raised (the `except ValidationError` clause); any
other exception propagates. -/
def validate (schema : List (String × SchemaEntry)) (config : List (String × PyVal)) :
    Except PyExc Bool :=
  match validateDict 100 schema config with
  | .ok _ => .ok true
  | .error (.validationError _) => .ok false
  | .error e => .error e

/-- `ConfigManager._get_config_schema()` (lines 158-220). -/
def configSchema : List (String × SchemaEntry) :=
  [("ui", .spec (some "dict") none (some
      [("theme", .spec (some "str") (some [.str "dark", .str "light"]) none true),
       ("language", .spec (some "str") (some [.str "zh_CN", .str "en_US"]) none true),
       ("window_size", .spec (some "dict") none (some
           [("width", .spec (some "int") none none true),
            ("height", .spec (some "int") none none true)]) true)]) true),
   ("injection", .spec (some "dict") none (some
      [("default_method", .spec (some "str")
          (some [.str "new_section", .str "code_cave", .str "existing_section"]) none true),
       ("encryption_type", .spec (some "str")
          (some [.str "xor", .str "custom_xor", .str "rc4", .str "aes"]) none true),
       ("obfuscation_level", .spec (some "str")
          (some [.str "low", .str "medium", .str "high", .str "extreme"]) none true)]) true),
   ("process", .spec (some "dict") none (some
      [("refresh_interval", .spec (some "int") none none true),
       ("show_system_processes", .spec (some "bool") none none true)]) true),
   ("security", .spec (some "dict") none (some
      [("backup_files", .spec (some "bool") none none true),
       ("verify_signatures", .spec (some "bool") none none true),
       ("log_operations", .spec (some "bool") none none true)]) true),
   ("plugins", .spec (some "dict") none (some
      [("enabled", .spec (some "list") none none true),
       ("auto_update", .spec (some "bool") none none true)]) true)]

/-- `ConfigManager._get_default_config()` (lines 222-251). -/
def default_config : List (String × PyVal) :=
  [("ui", .dict
      [("theme", .str "dark"), ("language", .str "zh_CN"),
       ("window_size", .dict [("width", .int 1200), ("height", .int 800)])]),
   ("injection", .dict
      [("default_method", .str "new_section"), ("encryption_type", .str "xor"),
       ("obfuscation_level", .str "medium")]),
   ("process", .dict
      [("refresh_interval", .int 5), ("show_system_processes", .bool false)]),
   ("security", .dict
      [("backup_files", .bool true), ("verify_signatures", .bool true),
       ("log_operations", .bool true)]),
   ("plugins", .dict
      [("enabled", .list []), ("auto_update", .bool true)])]

/-- Python `key.startswith('_')`: the first character is an underscore.
(Defined on the character list so that it evaluates inside the kernel.) -/
def pyStartsWithUnderscore (k : String) : Bool :=
  match k.data with
  | [] => false
  | c :: _ => c == '_'

/-- One iteration of `_migrate_config`'s merge loop: assign `new_config[key]`
when `key in new_config and not key.startswith('_')`. -/
def migrateStep (acc : List (String × PyVal)) (kv : String × PyVal) :
    List (String × PyVal) :=
  if containsKey acc kv.1 && !(pyStartsWithUnderscore kv.1) then pySetItem acc kv.1 kv.2
  else acc

/-- `ConfigManager._migrate_config`: rebuild the defaults and overlay every
old key that already exists in the defaults and does not start with `_`. -/
def migrate_config (old : List (String × PyVal)) : List (String × PyVal) :=
  old.foldl migrateStep default_config

/-- `ConfigManager._validate_version`: stored version == `"1.0.0"`. -/
def validate_version (v : PyVal) : Bool :=
  pyEqScalar v (.str "1.0.0")

/-- What a run of `ConfigManager.load_config` leaves behind: the in-memory
configuration, the file contents written by `save_config` (if reached), and
the exception it re-raises (if any). -/
structure LoadOutcome where
  config : List (String × PyVal)
  savedFile : Option (List (String × PyVal))
  raised : Option PyExc

/-- `ConfigManager.load_config` (lines 77-97) on a stored file modelled as
`none` (file absent) or `some` parsed JSON dict.  A version mismatch routes
through `_migrate_config`; a failed validation (or a propagating exception)
resets the configuration to the defaults and re-raises; otherwise
`save_config` writes the configuration with `_version` set to `"1.0.0"`. -/
def load_config (file : Option (List (String × PyVal))) : LoadOutcome :=
  let cfg : List (String × PyVal) :=
    match file with
    | some loaded =>
        if validate_version (pyGet loaded "_version" (.str "0.0.0")) then loaded
        else migrate_config loaded
    | none => default_config
  match validate configSchema cfg with
  | .ok true =>
      { config := cfg,
        savedFile := some (pySetItem cfg "_version" (.str "1.0.0")),
        raised := none }
  | .ok false =>
      { config := default_config, savedFile := none,
        raised := some (.validationError "配置验证失败") }
  | .error e =>
      { config := default_config, savedFile := none, raised := some e }

/-- Concrete test configuration: the default configuration, except that
`ui.window_size.width` (declared `"type": "int"` in the schema) holds the
value `w`. -/
def widthConfig (w : PyVal) : List (String × PyVal) :=
  [("ui", .dict
      [("theme", .str "dark"), ("language", .str "zh_CN"),
       ("window_size", .dict [("width", w), ("height", .int 800)])]),
   ("injection", .dict
      [("default_method", .str "new_section"), ("encryption_type", .str "xor"),
       ("obfuscation_level", .str "medium")]),
   ("process", .dict
      [("refresh_interval", .int 5), ("show_system_processes", .bool false)]),
   ("security", .dict
      [("backup_files", .bool true), ("verify_signatures", .bool true),
       ("log_operations", .bool true)]),
   ("plugins", .dict
      [("enabled", .list []), ("auto_update", .bool true)])]

end Config

/-! ## Theorems -/

namespace Obfuscator

theorem custom_xor_loop_involutive (key : List Nat) (data : List Nat) :
    ∀ i, custom_xor_loop key i (custom_xor_loop key i data) = data := by
  induction data with
  | nil => intro i; rfl
  | cons b rest ih =>
      intro i
      simp [custom_xor_loop, ih (i + 1), Nat.xor_assoc, Nat.xor_self]

/-- C5: applying the single-byte XOR transform twice with the same key byte
(in [1,255]) returns the original payload, and applying the rolling 4-byte
XOR transform (`output[i] = input[i] XOR key[i mod 4]`) twice with the same
4-byte key returns the original payload exactly. -/
theorem xor_double_application_identity (data : List Nat) :
    (∀ key : Nat, 1 ≤ key → key ≤ 255 →
        xor_encrypt key (xor_encrypt key data) = data) ∧
    (∀ key : List Nat, key.length = 4 →
        custom_xor_encrypt key (custom_xor_encrypt key data) = data) := by
  constructor
  · intro key _ _
    have hcomp : ((fun b => b ^^^ key) ∘ fun b => b ^^^ key) = id := by
      funext b
      simp [Function.comp, Nat.xor_assoc, Nat.xor_self]
    simp [xor_encrypt, List.map_map, hcomp]
  · intro key _
    exact custom_xor_loop_involutive key data 0

theorem xor_double_application_identity_witness :
    xor_encrypt 7 (xor_encrypt 7 [1, 2, 3]) = [1, 2, 3] ∧
    custom_xor_encrypt [9, 8, 7, 6] (custom_xor_encrypt [9, 8, 7, 6] [1, 2, 3, 4, 5]) =
      [1, 2, 3, 4, 5] :=
  ⟨(xor_double_application_identity [1, 2, 3]).1 7 (by decide) (by decide),
   (xor_double_application_identity [1, 2, 3, 4, 5]).2 [9, 8, 7, 6] (by decide)⟩

/-- The source's encryption loop is the zipWith of the plaintext with the
reference keystream generated from the same state. -/
theorem rc4Prga_eq_zipWith (data : List Nat) : ∀ S i j,
    rc4Prga S i j data =
      List.zipWith (fun b k => b ^^^ k) data (rc4RefKeystream S i j data.length) := by
  induction data with
  | nil => intro S i j; rfl
  | cons b rest ih =>
      intro S i j
      simp only [rc4Prga, rc4RefKeystream, List.length_cons, List.zipWith_cons_cons]
      rw [ih]

/-- The reference KSA recursion computes the source's fold over
`List.range'`, for a 16-byte key. -/
theorem rc4RefKsaGo_eq_foldl (key : List Nat) :
    ∀ (n i : Nat) (S : List Nat) (j : Nat),
      rc4RefKsaGo key S j i n =
        ((List.range' i n).foldl
          (fun p i2 =>
            let j2 := (p.2 + p.1.getD i2 0 + key.getD (i2 % 16) 0) % 256
            (rc4Swap p.1 i2 j2, j2)) (S, j)).1 := by
  intro n
  induction n with
  | zero => intro i S j; rfl
  | succ n ih =>
      intro i S j
      rw [List.range'_succ]
      simp only [List.foldl_cons, rc4RefKsaGo]
      exact ih (i + 1) _ _

/-- The source KSA and the reference KSA agree for a 16-byte key. -/
theorem ksa_eq_ref (key : List Nat) (hk : key.length = 16) :
    (ksa key).1 = rc4RefKsa key := by
  unfold ksa rc4RefKsa
  simp only [hk]
  rw [List.range_eq_range']
  exact (rc4RefKsaGo_eq_foldl key 256 0 (List.range' 0 256) 0).symm

theorem rc4RefKeystream_length : ∀ (n : Nat) (S : List Nat) (i j : Nat),
    (rc4RefKeystream S i j n).length = n := by
  intro n
  induction n with
  | zero => intro S i j; rfl
  | succ n ih => intro S i j; simp only [rc4RefKeystream, List.length_cons, ih]

theorem zipWith_xor_getD (l1 : List Nat) : ∀ (l2 : List Nat) (n : Nat),
    n < l1.length → l1.length = l2.length →
    (List.zipWith (fun b k => b ^^^ k) l1 l2).getD n 0 = l1.getD n 0 ^^^ l2.getD n 0 := by
  induction l1 with
  | nil => intro l2 n h _; simp at h
  | cons a l1 ih =>
      intro l2 n h hlen
      match l2 with
      | [] => simp at hlen
      | b :: l2 =>
          match n with
          | 0 => rfl
          | n + 1 =>
              simp only [List.zipWith_cons_cons, List.getD_cons_succ]
              exact ih l2 n (by simpa using h) (by simpa using hlen)

/-- C4: for every 16-byte key and every plaintext, the obfuscator's RC4
routine equals an independent reference RC4 cipher: its output byte `n` is
plaintext byte `n` XORed with the standard RC4 keystream byte `n` for that
key. -/
theorem rc4_encrypt_matches_reference (key data : List Nat) (hk : key.length = 16) :
    rc4_encrypt key data = rc4_reference key data ∧
    ∀ n, n < data.length →
      (rc4_encrypt key data).getD n 0 =
        data.getD n 0 ^^^ (rc4RefKeystream (rc4RefKsa key) 0 0 data.length).getD n 0 := by
  have hmain : rc4_encrypt key data = rc4_reference key data := by
    unfold rc4_encrypt rc4_reference
    rw [ksa_eq_ref key hk, rc4Prga_eq_zipWith]
  refine ⟨hmain, ?_⟩
  intro n hn
  rw [hmain]
  unfold rc4_reference
  exact zipWith_xor_getD data _ n hn (rc4RefKeystream_length data.length _ 0 0).symm

theorem rc4_encrypt_matches_reference_witness :
    ([1, 2, 3, 4, 5, 6, 7, 8, 9, 10, 11, 12, 13, 14, 15, 16] : List Nat).length = 16 ∧
    rc4_encrypt [1, 2, 3, 4, 5, 6, 7, 8, 9, 10, 11, 12, 13, 14, 15, 16] [10, 20, 30] =
      rc4_reference [1, 2, 3, 4, 5, 6, 7, 8, 9, 10, 11, 12, 13, 14, 15, 16] [10, 20, 30] :=
  ⟨by decide,
   (rc4_encrypt_matches_reference [1, 2, 3, 4, 5, 6, 7, 8, 9, 10, 11, 12, 13, 14, 15, 16]
      [10, 20, 30] (by decide)).1⟩

end Obfuscator

namespace PEInjector

theorem leBytes_length (n v : Nat) : (leBytes n v).length = n := by
  induction n generalizing v with
  | zero => rfl
  | succ n ih => simp [leBytes, ih]

/-- The little-endian bytes recompose to the encoded value mod 256^n. -/
theorem leBytes_decode (n : Nat) : ∀ v : Nat,
    (leBytes n v).foldr (fun b acc => b + 256 * acc) 0 = v % 256 ^ n := by
  induction n with
  | zero => intro v; simp [leBytes, Nat.mod_one]
  | succ n ih =>
      intro v
      simp only [leBytes, List.foldr, ih (v / 256)]
      have h256 : (256 : Nat) ^ (n + 1) = 256 * 256 ^ n := by ring
      rw [h256, Nat.mod_mul]

theorem leBytes_lt (n v : Nat) : ∀ b ∈ leBytes n v, b < 256 := by
  induction n generalizing v with
  | zero => simp [leBytes]
  | succ n ih =>
      intro b hb
      simp only [leBytes, List.mem_cons] at hb
      rcases hb with h | h
      · omega
      · exact ih _ _ h

/-- C6: for addresses whose jump displacement fits in a signed 32-bit value,
`_create_return_jump(from, to)` returns exactly 5 bytes, `0xE9` followed by
the little-endian signed 32-bit encoding of `to - (from + 5)`; in particular
`_create_return_jump(0x2000, 0x1000)` yields `0xE9` followed by the
little-endian encoding of `0x1000 - 0x2005`. -/
theorem create_return_jump_encoding (from_addr to_addr : Int)
    (h1 : -(2 ^ 31) ≤ to_addr - (from_addr + 5))
    (h2 : to_addr - (from_addr + 5) < 2 ^ 31) :
    (∃ bs, create_return_jump from_addr to_addr = some (0xE9 :: bs) ∧
        bs.length = 4 ∧ (∀ b ∈ bs, b < 256) ∧
        bs.foldr (fun b acc => b + 256 * acc) 0 =
          ((to_addr - (from_addr + 5)) % 2 ^ 32).toNat) ∧
    create_return_jump 0x2000 0x1000 = some [0xE9, 0xFB, 0xEF, 0xFF, 0xFF] := by
  constructor
  · refine ⟨leBytes 4 ((to_addr - (from_addr + 5)) % 2 ^ 32).toNat, ?_, ?_, ?_, ?_⟩
    · unfold create_return_jump toBytes4LESigned
      rw [if_pos ⟨h1, h2⟩]
      rfl
    · exact leBytes_length 4 _
    · exact leBytes_lt 4 _
    · rw [leBytes_decode]
      have hlt : ((to_addr - (from_addr + 5)) % 2 ^ 32).toNat < 256 ^ 4 := by
        have := Int.emod_lt_of_pos (to_addr - (from_addr + 5))
          (by norm_num : (0 : Int) < 2 ^ 32)
        omega
      exact Nat.mod_eq_of_lt hlt
  · decide

theorem create_return_jump_encoding_witness :
    create_return_jump 0x2000 0x1000 = some [0xE9, 0xFB, 0xEF, 0xFF, 0xFF] :=
  (create_return_jump_encoding 0x2000 0x1000 (by decide) (by decide)).2

theorem cappedRun_le_cap : ∀ (cap : Nat) (data : List Nat), cappedRun cap data ≤ cap := by
  intro cap
  induction cap with
  | zero => intro data; cases data <;> simp [cappedRun]
  | succ cap ih =>
      intro data
      cases data with
      | nil => simp [cappedRun]
      | cons b rest =>
          simp only [cappedRun]
          by_cases hb : isCaveByte b = true
          · rw [if_pos hb]
            have := ih rest
            omega
          · rw [if_neg hb]
            omega

theorem cappedRun_le_length : ∀ (cap : Nat) (data : List Nat),
    cappedRun cap data ≤ data.length := by
  intro cap
  induction cap with
  | zero => intro data; cases data <;> simp [cappedRun]
  | succ cap ih =>
      intro data
      cases data with
      | nil => simp [cappedRun]
      | cons b rest =>
          simp only [cappedRun, List.length_cons]
          by_cases hb : isCaveByte b = true
          · rw [if_pos hb]
            have := ih rest
            omega
          · rw [if_neg hb]
            omega

theorem cappedRun_bytes : ∀ (cap : Nat) (data : List Nat) (i : Nat),
    i < cappedRun cap data → isCaveByte (data.getD i 1) = true := by
  intro cap
  induction cap with
  | zero => intro data i h; cases data <;> simp [cappedRun] at h
  | succ cap ih =>
      intro data i h
      cases data with
      | nil => simp [cappedRun] at h
      | cons b rest =>
          simp only [cappedRun] at h
          by_cases hb : isCaveByte b = true
          · rw [if_pos hb] at h
            cases i with
            | zero => simpa using hb
            | succ i =>
                simp only [List.getD_cons_succ]
                exact ih rest i (by omega)
          · rw [if_neg hb] at h
            omega

theorem cappedRun_stop : ∀ (cap : Nat) (data : List Nat),
    cappedRun cap data < cap →
    cappedRun cap data = data.length ∨
      isCaveByte (data.getD (cappedRun cap data) 1) = false := by
  intro cap
  induction cap with
  | zero => intro data h; omega
  | succ cap ih =>
      intro data h
      cases data with
      | nil => left; cases cap <;> simp [cappedRun]
      | cons b rest =>
          simp only [cappedRun] at h ⊢
          by_cases hb : isCaveByte b = true
          · rw [if_pos hb] at h ⊢
            rcases ih rest (by omega) with hlen | hbyte
            · left
              simp [hlen]
            · right
              simpa using hbyte
          · rw [if_neg hb] at h ⊢
            right
            simp only [List.getD_cons_zero]
            exact Bool.eq_false_iff.mpr hb

theorem getD_drop_nat : ∀ (l : List Nat) (m i : Nat),
    (l.drop m).getD i 1 = l.getD (m + i) 1 := by
  intro l
  induction l with
  | nil => intro m i; simp
  | cons b rest ih =>
      intro m i
      cases m with
      | zero => simp
      | succ m =>
          simp only [List.drop_succ_cons, List.getD_cons_succ, Nat.succ_add]
          exact ih m i

theorem hasRunAt_cons_succ (b : Nat) (rest : List Nat) (size q : Nat) :
    hasRunAt (b :: rest) size (q + 1) ↔ hasRunAt rest size q := by
  unfold hasRunAt
  constructor
  · rintro ⟨hlen, hbytes⟩
    refine ⟨by simp only [List.length_cons] at hlen; omega, fun i hi => ?_⟩
    have := hbytes i hi
    simpa [Nat.add_right_comm q 1 i] using this
  · rintro ⟨hlen, hbytes⟩
    refine ⟨by simp only [List.length_cons]; omega, fun i hi => ?_⟩
    have := hbytes i hi
    simpa [Nat.add_right_comm q 1 i] using this

theorem hasRunAt_drop (data : List Nat) (size m q : Nat) (hs : 0 < size) :
    hasRunAt (data.drop m) size q ↔ hasRunAt data size (m + q) := by
  unfold hasRunAt
  rw [List.length_drop]
  constructor
  · rintro ⟨hlen, hbytes⟩
    refine ⟨by omega, fun i hi => ?_⟩
    have := hbytes i hi
    rw [getD_drop_nat] at this
    simpa [Nat.add_assoc] using this
  · rintro ⟨hlen, hbytes⟩
    refine ⟨by omega, fun i hi => ?_⟩
    rw [getD_drop_nat]
    have := hbytes i hi
    simpa [Nat.add_assoc] using this

theorem not_hasRunAt_of_head (b : Nat) (rest : List Nat) (size : Nat) (hs : 0 < size)
    (hb : isCaveByte b = false) : ¬hasRunAt (b :: rest) size 0 := by
  rintro ⟨_, hbytes⟩
  have := hbytes 0 hs
  simp only [Nat.add_zero, List.getD_cons_zero] at this
  rw [this] at hb
  cases hb

theorem firstRunPos_sound (size : Nat) : ∀ (data : List Nat) (q : Nat),
    firstRunPos size data = some q →
    hasRunAt data size q ∧ ∀ q' < q, ¬hasRunAt data size q' := by
  intro data
  induction data with
  | nil => intro q h; simp [firstRunPos] at h
  | cons b rest ih =>
      intro q h
      simp only [firstRunPos] at h
      by_cases h0 : hasRunAt (b :: rest) size 0
      · rw [if_pos h0] at h
        cases h
        exact ⟨h0, by omega⟩
      · rw [if_neg h0] at h
        cases hrest : firstRunPos size rest with
        | none => rw [hrest] at h; cases h
        | some q0 =>
            rw [hrest] at h
            replace h : q0 + 1 = q := by simpa using h
            obtain ⟨hrun, hmin⟩ := ih q0 hrest
            cases h
            constructor
            · exact (hasRunAt_cons_succ b rest size q0).mpr hrun
            · intro q' hq'
              cases q' with
              | zero => exact h0
              | succ q'' =>
                  intro hcon
                  exact hmin q'' (by omega) ((hasRunAt_cons_succ b rest size q'').mp hcon)

theorem firstRunPos_complete (size : Nat) (hs : 0 < size) : ∀ (data : List Nat) (q : Nat),
    hasRunAt data size q → ∃ q0, firstRunPos size data = some q0 := by
  intro data
  induction data with
  | nil =>
      intro q h
      obtain ⟨hlen, _⟩ := h
      simp only [List.length_nil] at hlen
      omega
  | cons b rest ih =>
      intro q h
      simp only [firstRunPos]
      by_cases h0 : hasRunAt (b :: rest) size 0
      · exact ⟨0, by rw [if_pos h0]⟩
      · rw [if_neg h0]
        cases q with
        | zero => exact absurd h h0
        | succ q' =>
            obtain ⟨q0, hq0⟩ := ih q' ((hasRunAt_cons_succ b rest size q').mp h)
            exact ⟨q0 + 1, by rw [hq0]; rfl⟩

/-- When the capped run stops short of `size`, no position up to and
including the stopping point starts a run of length `size`. -/
theorem no_run_upto_cappedRun (size : Nat) (data : List Nat)
    (hlt : cappedRun size data < size) :
    ∀ q' ≤ cappedRun size data, ¬hasRunAt data size q' := by
  intro q' hq' hrun
  obtain ⟨hlen, hbytes⟩ := hrun
  rcases cappedRun_stop size data hlt with hl | hb
  · omega
  · have hi : cappedRun size data - q' < size := by omega
    have hcave := hbytes (cappedRun size data - q') hi
    rw [show q' + (cappedRun size data - q') = cappedRun size data from by omega] at hcave
    rw [hcave] at hb
    cases hb

theorem firstRunPos_drop_one (size : Nat) (data : List Nat)
    (h0 : ¬hasRunAt data size 0) :
    firstRunPos size data = (firstRunPos size (data.drop 1)).map (· + 1) := by
  cases data with
  | nil => rfl
  | cons b rest => simp [firstRunPos, h0]

theorem firstRunPos_drop (size : Nat) (hs : 0 < size) : ∀ (m : Nat) (data : List Nat),
    (∀ q' < m, ¬hasRunAt data size q') →
    firstRunPos size data = (firstRunPos size (data.drop m)).map (· + m) := by
  intro m
  induction m with
  | zero =>
      intro data _
      cases h : firstRunPos size data <;> simp [h]
  | succ m ih =>
      intro data h
      rw [firstRunPos_drop_one size data (h 0 (by omega))]
      have hdrop : ∀ q' < m, ¬hasRunAt (data.drop 1) size q' := by
        intro q' hq' hcon
        exact h (1 + q') (by omega) ((hasRunAt_drop data size 1 q' hs).mp hcon)
      rw [ih (data.drop 1) hdrop]
      have hdd : (data.drop 1).drop m = data.drop (m + 1) := by
        rw [List.drop_drop, Nat.add_comm]
      rw [hdd]
      cases firstRunPos size (data.drop (m + 1)) with
      | none => rfl
      | some x =>
          simp only [Option.map_map, Option.map]
          simp [Function.comp, Nat.add_assoc]

/-- The implementation's scan equals the specification-side least-run
finder: it returns the least position starting a run of at least `size`
cave bytes, with reported length exactly `size`, offset by `pos`. -/
theorem scanCave_eq (size : Nat) (hs : 0 < size) : ∀ (data : List Nat) (pos : Nat),
    scanCave size data pos = (firstRunPos size data).map (fun q => (pos + q, size)) := by
  intro data pos
  induction data, pos using scanCave.induct size with
  | case1 pos => rw [scanCave.eq_def]; rfl
  | case2 b rest pos hb r hsr =>
      have hr : r = cappedRun size (b :: rest) := rfl
      rw [hr] at hsr
      have hreq : cappedRun size (b :: rest) = size :=
        le_antisymm (cappedRun_le_cap size (b :: rest)) hsr
      have hrun0 : hasRunAt (b :: rest) size 0 := by
        constructor
        · have h1 := cappedRun_le_length size (b :: rest)
          omega
        · intro i hi
          have := cappedRun_bytes size (b :: rest) i (by omega)
          simpa using this
      rw [scanCave.eq_def]
      show (if isCaveByte b = true then
          if size ≤ cappedRun size (b :: rest) then some (pos, cappedRun size (b :: rest))
          else scanCave size (rest.drop (cappedRun size (b :: rest)))
            (pos + cappedRun size (b :: rest) + 1)
        else scanCave size rest (pos + 1)) =
        (firstRunPos size (b :: rest)).map (fun q => (pos + q, size))
      rw [if_pos hb, if_pos hsr, hreq]
      simp only [firstRunPos, if_pos hrun0]
      simp
  | case3 b rest pos hb r hsr ih =>
      have hr : r = cappedRun size (b :: rest) := rfl
      rw [hr] at hsr ih
      have hlt : cappedRun size (b :: rest) < size := by omega
      have hnr : ∀ q' < cappedRun size (b :: rest) + 1, ¬hasRunAt (b :: rest) size q' :=
        fun q' hq' => no_run_upto_cappedRun size (b :: rest) hlt q' (by omega)
      rw [scanCave.eq_def]
      show (if isCaveByte b = true then
          if size ≤ cappedRun size (b :: rest) then some (pos, cappedRun size (b :: rest))
          else scanCave size (rest.drop (cappedRun size (b :: rest)))
            (pos + cappedRun size (b :: rest) + 1)
        else scanCave size rest (pos + 1)) =
        (firstRunPos size (b :: rest)).map (fun q => (pos + q, size))
      rw [if_pos hb, if_neg hsr, ih,
        firstRunPos_drop size hs (cappedRun size (b :: rest) + 1) (b :: rest) hnr,
        List.drop_succ_cons]
      rw [Option.map_map]
      cases firstRunPos size (rest.drop (cappedRun size (b :: rest))) with
      | none => rfl
      | some x =>
          simp only [Option.map, Function.comp]
          rw [Option.some.injEq, Prod.mk.injEq]
          exact ⟨by omega, rfl⟩
  | case4 b rest pos hb ih =>
      have h0 : ¬hasRunAt (b :: rest) size 0 :=
        not_hasRunAt_of_head b rest size hs (Bool.eq_false_iff.mpr hb)
      rw [scanCave.eq_def]
      show (if isCaveByte b = true then
          if size ≤ cappedRun size (b :: rest) then some (pos, cappedRun size (b :: rest))
          else scanCave size (rest.drop (cappedRun size (b :: rest)))
            (pos + cappedRun size (b :: rest) + 1)
        else scanCave size rest (pos + 1)) =
        (firstRunPos size (b :: rest)).map (fun q => (pos + q, size))
      rw [if_neg hb, ih, firstRunPos_drop_one size (b :: rest) h0, List.drop_one,
        List.tail_cons]
      rw [Option.map_map]
      cases firstRunPos size rest with
      | none => rfl
      | some x =>
          simp only [Option.map, Function.comp]
          rw [Option.some.injEq, Prod.mk.injEq]
          exact ⟨by omega, rfl⟩

/-- The implementation scan over the sections equals the specification-side
scan. -/
theorem find_code_cave_eq_spec (size : Nat) (hs : 0 < size) :
    ∀ sections, find_code_cave sections size = find_code_cave_spec sections size := by
  intro sections
  induction sections with
  | nil => rfl
  | cons s rest ih =>
      simp only [find_code_cave, find_code_cave_spec]
      by_cases he : isExecutable s = true
      · rw [if_pos he, if_pos he, scanCave_eq size hs s.data 0]
        cases hfp : firstRunPos size s.data with
        | none => simpa using ih
        | some p => simp
      · rw [if_neg he, if_neg he]
        exact ih

theorem find_code_cave_spec_sound (size : Nat) (hs : 0 < size) :
    ∀ (sections : List PESection) (va len : Nat),
      find_code_cave_spec sections size = some (va, len) →
      len = size ∧
      ∃ pre s post p, sections = pre ++ s :: post ∧ isExecutable s = true ∧
        (∀ t ∈ pre, isExecutable t = true → ∀ q, ¬hasRunAt t.data size q) ∧
        va = s.virtualAddress + p ∧ hasRunAt s.data size p ∧
        (∀ q < p, ¬hasRunAt s.data size q) := by
  intro sections
  induction sections with
  | nil => intro va len h; cases h
  | cons s rest ih =>
      intro va len h
      simp only [find_code_cave_spec] at h
      by_cases he : isExecutable s = true
      · rw [if_pos he] at h
        cases hfp : firstRunPos size s.data with
        | some p =>
            rw [hfp] at h
            replace h : s.virtualAddress + p = va ∧ size = len := by
              simpa using h
            obtain ⟨hrun, hmin⟩ := firstRunPos_sound size s.data p hfp
            exact ⟨h.2.symm, [], s, rest, p, rfl, he, by simp, h.1.symm, hrun, hmin⟩
        | none =>
            rw [hfp] at h
            obtain ⟨hlen2, pre, s', post, p, hdecomp, hexec, hpre, hva, hrun, hmin⟩ :=
              ih va len h
            refine ⟨hlen2, s :: pre, s', post, p, by rw [hdecomp]; rfl, hexec, ?_,
              hva, hrun, hmin⟩
            intro t ht hte q hq
            rcases List.mem_cons.mp ht with rfl | htm
            · obtain ⟨q0, hq0⟩ := firstRunPos_complete size hs t.data q hq
              rw [hfp] at hq0
              cases hq0
            · exact hpre t htm hte q hq
      · rw [if_neg he] at h
        obtain ⟨hlen2, pre, s', post, p, hdecomp, hexec, hpre, hva, hrun, hmin⟩ :=
          ih va len h
        refine ⟨hlen2, s :: pre, s', post, p, by rw [hdecomp]; rfl, hexec, ?_,
          hva, hrun, hmin⟩
        intro t ht hte q hq
        rcases List.mem_cons.mp ht with rfl | htm
        · exact absurd hte he
        · exact hpre t htm hte q hq

theorem find_code_cave_spec_none_iff (size : Nat) (hs : 0 < size) :
    ∀ sections : List PESection,
      find_code_cave_spec sections size = none ↔
        ∀ s ∈ sections, isExecutable s = true → ∀ q, ¬hasRunAt s.data size q := by
  intro sections
  induction sections with
  | nil => simp [find_code_cave_spec]
  | cons s rest ih =>
      simp only [find_code_cave_spec]
      by_cases he : isExecutable s = true
      · rw [if_pos he]
        cases hfp : firstRunPos size s.data with
        | some p =>
            constructor
            · intro h
              cases h
            · intro hall
              obtain ⟨hrun, _⟩ := firstRunPos_sound size s.data p hfp
              exact absurd hrun (hall s (by simp) he p)
        | none =>
            constructor
            · intro h t ht hte q hq
              rcases List.mem_cons.mp ht with rfl | htm
              · obtain ⟨q0, hq0⟩ := firstRunPos_complete size hs t.data q hq
                rw [hfp] at hq0
                cases hq0
              · exact (ih.mp h) t htm hte q hq
            · intro hall
              exact ih.mpr (fun t ht hte q => hall t (by simp [ht]) hte q)
      · rw [if_neg he]
        constructor
        · intro h t ht hte q hq
          rcases List.mem_cons.mp ht with rfl | htm
          · exact absurd hte he
          · exact (ih.mp h) t htm hte q hq
        · intro hall
          exact ih.mpr (fun t ht hte q => hall t (by simp [ht]) hte q)

/-- C7: `_find_code_cave` returns the virtual address of the first position
(in section scan order, skipping non-executable sections) starting a
contiguous run of at least `size` bytes each 0x00 or 0xCC, with a reported
length ≥ `size`, and returns no match when no executable section contains
such a run; in particular an executable section with a run of 40 zero bytes
surrounded by non-zero bytes yields offset-of-run and length ≥ 35 for
requested size 35, no match for 41, and the code-cave injection step raises
an Operation error (and the method returns false) when no cave of
`len(shellcode) + 5` exists. -/
theorem find_code_cave_characterization (size : Nat) (hs : 0 < size) :
    (∀ (sections : List PESection) (va len : Nat),
        find_code_cave sections size = some (va, len) →
        size ≤ len ∧
        ∃ pre s post p, sections = pre ++ s :: post ∧ isExecutable s = true ∧
          (∀ t ∈ pre, isExecutable t = true → ∀ q, ¬hasRunAt t.data size q) ∧
          va = s.virtualAddress + p ∧ hasRunAt s.data size p ∧
          (∀ q < p, ¬hasRunAt s.data size q)) ∧
    (∀ sections : List PESection,
        find_code_cave sections size = none ↔
        ∀ s ∈ sections, isExecutable s = true → ∀ q, ¬hasRunAt s.data size q) ∧
    (find_code_cave [cave40Section] 35 = some (0x1000 + 3, 35) ∧
        find_code_cave [cave40Section] 41 = none) ∧
    (∀ (sections : List PESection) (shellcodeLen : Nat),
        (∀ s ∈ sections, isExecutable s = true →
            ∀ q, ¬hasRunAt s.data (shellcodeLen + 5) q) →
        inject_code_cave_find_step sections shellcodeLen =
          .error (.operationError "未找到足够大的代码洞") ∧
        ∀ restOfBody,
          inject_code_cave_result_of_find sections shellcodeLen restOfBody = false) := by
  refine ⟨?_, ?_, ⟨?_, ?_⟩, ?_⟩
  · intro sections va len h
    rw [find_code_cave_eq_spec size hs] at h
    obtain ⟨hlen2, hrest⟩ := find_code_cave_spec_sound size hs sections va len h
    exact ⟨le_of_eq hlen2.symm, hrest⟩
  · intro sections
    rw [find_code_cave_eq_spec size hs]
    exact find_code_cave_spec_none_iff size hs sections
  · rw [find_code_cave_eq_spec 35 (by decide)]
    decide
  · rw [find_code_cave_eq_spec 41 (by decide)]
    decide
  · intro sections shellcodeLen hall
    have h5 : 0 < shellcodeLen + 5 := by omega
    have hnone : find_code_cave sections (shellcodeLen + 5) = none := by
      rw [find_code_cave_eq_spec (shellcodeLen + 5) h5]
      exact (find_code_cave_spec_none_iff (shellcodeLen + 5) h5 sections).mpr hall
    constructor
    · unfold inject_code_cave_find_step
      rw [hnone]
    · intro restOfBody
      unfold inject_code_cave_result_of_find inject_code_cave_find_step
      rw [hnone]

theorem find_code_cave_characterization_witness :
    find_code_cave [cave40Section] 35 = some (0x1000 + 3, 35) ∧
    find_code_cave [cave40Section] 41 = none :=
  ⟨(find_code_cave_characterization 35 (by decide)).2.2.1.1,
   (find_code_cave_characterization 41 (by decide)).2.2.1.2⟩

end PEInjector

namespace ErrorStats

theorem get_recent_errors_pos {α : Type} (history : List α) (limit : Nat)
    (h : 0 < limit) :
    get_recent_errors history limit = history.drop (history.length - limit) := by
  unfold get_recent_errors pySliceFromNegEnd
  rw [if_neg (by omega)]

/-- C10: for a positive `limit`, `get_recent_errors` returns the last
`min(limit, n)` recorded entries of the history (a suffix of the history of
that length); for `limit = 0` it returns the entire history, not the empty
list. -/
theorem get_recent_errors_limit_behavior {α : Type} (history : List α) (limit : Nat) :
    (0 < limit →
        get_recent_errors history limit = history.drop (history.length - limit) ∧
        (get_recent_errors history limit).length = min limit history.length ∧
        get_recent_errors history limit <:+ history) ∧
    (limit = 0 → get_recent_errors history limit = history) := by
  constructor
  · intro h
    refine ⟨get_recent_errors_pos history limit h, ?_, ?_⟩
    · rw [get_recent_errors_pos history limit h, List.length_drop]
      omega
    · rw [get_recent_errors_pos history limit h]
      exact List.drop_suffix _ _
  · intro h
    subst h
    rfl

theorem get_recent_errors_limit_behavior_witness :
    (ErrorStats.get_recent_errors [10, 20, 30] 2 = [20, 30] ∧
        (ErrorStats.get_recent_errors [10, 20, 30] 2).length = 2) ∧
    ErrorStats.get_recent_errors [10, 20, 30] 0 = [10, 20, 30] := by
  have h := get_recent_errors_limit_behavior [10, 20, 30] 2
  have h0 := get_recent_errors_limit_behavior [10, 20, 30] 0
  exact ⟨⟨((h.1 (by decide)).1).trans (by decide), ((h.1 (by decide)).2.1).trans (by decide)⟩,
    h0.2 rfl⟩

end ErrorStats

namespace Config

/-- C9: the schema type check maps `"int"` to Python's `int`, and in Python
`bool` is a subclass of `int`, so a boolean always passes an `"int"` type
check; in particular the full repository schema accepts a configuration
whose `ui.window_size.width` (declared `"type": "int"`) holds a boolean. -/
theorem validator_accepts_bool_for_int :
    (∀ b : Bool, typeCheck (PyVal.bool b) "int" = true) ∧
    (∀ b : Bool, validate configSchema (widthConfig (.bool b)) = .ok true) :=
  ⟨fun b => by cases b <;> rfl, fun b => by cases b <;> rfl⟩

theorem containsKey_eq_isSome (d : List (String × PyVal)) (k : String) :
    containsKey d k = (lookupPy d k).isSome := by
  induction d with
  | nil => rfl
  | cons p rest ih =>
      cases hp : (p.1 == k) with
      | true => simp [containsKey, lookupPy, hp]
      | false =>
          simp only [containsKey, lookupPy, hp, List.any_cons, Bool.false_or, if_false]
          simpa [containsKey] using ih

theorem lookupPy_eq_none_of_not_mem (d : List (String × PyVal)) (k : String)
    (h : k ∉ d.map Prod.fst) : lookupPy d k = none := by
  induction d with
  | nil => rfl
  | cons p rest ih =>
      simp only [List.map_cons, List.mem_cons] at h
      push_neg at h
      have hp : (p.1 == k) = false := by
        simp only [beq_eq_false_iff_ne]
        exact fun he => h.1 he.symm
      simp only [lookupPy, hp]
      exact ih h.2

/-- Keys are preserved by an assignment to an existing key. -/
theorem pySetItem_keys (d : List (String × PyVal)) (k : String) (v : PyVal)
    (h : containsKey d k = true) :
    (pySetItem d k v).map Prod.fst = d.map Prod.fst := by
  unfold pySetItem
  rw [if_pos h, List.map_map]
  apply List.map_congr_left
  intro p _
  by_cases hp : (p.1 == k) = true <;> simp [hp, Function.comp]

/-- Lookup after replacing the value of key `k` (the replace branch of
`pySetItem`, written out). -/
theorem lookupPy_replace (d : List (String × PyVal)) (k : String) (v : PyVal) :
    ∀ kq : String,
      lookupPy (d.map (fun p => if p.1 == k then (p.1, v) else p)) kq =
        if kq = k then (lookupPy d k).map (fun _ => v) else lookupPy d kq := by
  induction d with
  | nil => intro kq; by_cases h : kq = k <;> simp [lookupPy, h]
  | cons p rest ih =>
      intro kq
      have ih' := ih kq
      by_cases hp1 : p.1 = k
      · by_cases hq : kq = k
        · subst hq
          simp [lookupPy, hp1]
        · have hq' : ¬k = kq := fun he => hq he.symm
          simp only [List.map_cons, lookupPy, hp1, beq_self_eq_true, if_true,
            beq_iff_eq, if_neg hq', if_neg hq] at ih' ⊢
          exact ih'
      · by_cases hq : kq = k
        · subst hq
          simp only [List.map_cons, lookupPy, beq_iff_eq, if_neg hp1, if_pos rfl] at ih' ⊢
          exact ih'
        · by_cases hpq : p.1 = kq
          · simp [lookupPy, beq_iff_eq, hp1, hpq, hq]
          · simp only [List.map_cons, lookupPy, beq_iff_eq, if_neg hp1, if_neg hpq,
              if_neg hq] at ih' ⊢
            exact ih'

theorem migrateStep_keys (acc : List (String × PyVal)) (kv : String × PyVal) :
    (migrateStep acc kv).map Prod.fst = acc.map Prod.fst := by
  unfold migrateStep
  by_cases h : (containsKey acc kv.1 && !(pyStartsWithUnderscore kv.1)) = true
  · rw [if_pos h]
    exact pySetItem_keys acc kv.1 kv.2 (Bool.and_eq_true _ _ ▸ h).1
  · rw [if_neg h]

/-- The migration fold never adds or removes keys. -/
theorem migrate_fold_keys (old : List (String × PyVal)) :
    ∀ acc : List (String × PyVal),
      (old.foldl migrateStep acc).map Prod.fst = acc.map Prod.fst := by
  induction old with
  | nil => intro acc; rfl
  | cons kv rest ih =>
      intro acc
      simp only [List.foldl_cons]
      rw [ih (migrateStep acc kv)]
      exact migrateStep_keys acc kv

theorem migrateStep_lookup_other (acc : List (String × PyVal)) (kv : String × PyVal)
    (k : String) (hk : ¬k = kv.1) :
    lookupPy (migrateStep acc kv) k = lookupPy acc k := by
  unfold migrateStep
  by_cases hc : (containsKey acc kv.1 && !(pyStartsWithUnderscore kv.1)) = true
  · rw [if_pos hc]
    unfold pySetItem
    rw [if_pos (Bool.and_eq_true _ _ ▸ hc).1, lookupPy_replace, if_neg hk]
  · rw [if_neg hc]

/-- Lookup characterization of `_migrate_config`'s merge loop: for an old
file with unique keys, a key found in the old file is overlaid onto the
accumulator exactly when the accumulator already has it and it is not
private; every other key keeps the accumulator's value. -/
theorem migrate_fold_lookup (old : List (String × PyVal)) :
    ∀ (acc : List (String × PyVal)) (k : String), (old.map Prod.fst).Nodup →
      lookupPy (old.foldl migrateStep acc) k =
        match lookupPy old k with
        | some w =>
            if containsKey acc k && !(pyStartsWithUnderscore k) then some w else lookupPy acc k
        | none => lookupPy acc k := by
  induction old with
  | nil => intro acc k _; simp [lookupPy]
  | cons kv rest ih =>
      intro acc k hnd
      rw [List.map_cons, List.nodup_cons] at hnd
      obtain ⟨hh, ht⟩ := hnd
      simp only [List.foldl_cons]
      rw [ih (migrateStep acc kv) k ht]
      by_cases hk : k = kv.1
      · subst hk
        have hrest : lookupPy rest kv.1 = none := lookupPy_eq_none_of_not_mem rest kv.1 hh
        have hold : lookupPy (kv :: rest) kv.1 = some kv.2 := by simp [lookupPy]
        rw [hrest, hold]
        show lookupPy (migrateStep acc kv) kv.1 =
          if containsKey acc kv.1 && !(pyStartsWithUnderscore kv.1) then some kv.2
          else lookupPy acc kv.1
        unfold migrateStep
        by_cases hc : (containsKey acc kv.1 && !(pyStartsWithUnderscore kv.1)) = true
        · rw [if_pos hc, if_pos hc]
          unfold pySetItem
          rw [if_pos (Bool.and_eq_true _ _ ▸ hc).1, lookupPy_replace, if_pos rfl]
          have hsome : (lookupPy acc kv.1).isSome = true := by
            rw [← containsKey_eq_isSome]
            exact (Bool.and_eq_true _ _ ▸ hc).1
          obtain ⟨w, hw⟩ := Option.isSome_iff_exists.mp hsome
          rw [hw]
          rfl
        · rw [if_neg hc, if_neg hc]
      · have hhead : (kv.1 == k) = false := by
          simp only [beq_eq_false_iff_ne]
          exact fun he => hk he.symm
        have hold : lookupPy (kv :: rest) k = lookupPy rest k := by
          simp [lookupPy, hhead]
        have hlacc : lookupPy (migrateStep acc kv) k = lookupPy acc k :=
          migrateStep_lookup_other acc kv k hk
        have hcacc : containsKey (migrateStep acc kv) k = containsKey acc k := by
          rw [containsKey_eq_isSome, containsKey_eq_isSome, hlacc]
        rw [hold, hlacc, hcacc]

/-- C3 counterexample: a stored file at a stale version whose `ui` value is
the (schema-invalid) integer 5.  Migration overlays `ui := 5`, but
`load_config` then fails validation, resets to the pure defaults, saves
nothing and raises — so, contrary to the claim, the produced configuration
is not the defaults-with-overrides and is not saved. -/
theorem load_config_stale_version_counterexample :
    validate_version (pyGet [("_version", PyVal.str "0.0.0"), ("ui", PyVal.int 5)]
        "_version" (.str "0.0.0")) = false ∧
    lookupPy (migrate_config [("_version", PyVal.str "0.0.0"), ("ui", PyVal.int 5)]) "ui" =
      some (PyVal.int 5) ∧
    (load_config (some [("_version", PyVal.str "0.0.0"), ("ui", PyVal.int 5)])).savedFile =
      none ∧
    (load_config (some [("_version", PyVal.str "0.0.0"), ("ui", PyVal.int 5)])).raised =
      some (.validationError "配置验证失败") ∧
    (load_config (some [("_version", PyVal.str "0.0.0"), ("ui", PyVal.int 5)])).config =
      default_config ∧
    (load_config (some [("_version", PyVal.str "0.0.0"), ("ui", PyVal.int 5)])).config ≠
      migrate_config [("_version", PyVal.str "0.0.0"), ("ui", PyVal.int 5)] := by
  refine ⟨rfl, rfl, rfl, rfl, rfl, ?_⟩
  intro h
  have h2 := congrArg (fun l => (lookupPy l "ui").map
      (fun v => match v with | PyVal.int _ => true | _ => false)) h
  have h3 : (some false : Option Bool) = some true := h2
  exact absurd (Option.some.inj h3) (by decide)

/-- C3 (amended): for a stored file whose `_version` differs from `"1.0.0"`
(and whose keys are unique, as for parsed JSON), `_migrate_config` rebuilds
the default configuration overriding exactly those top-level keys that
appear in the old file, exist in the defaults, and do not start with an
underscore, and drops every other key of the old file; provided the
migrated configuration passes schema validation, `load_config` adopts it
and saves it stamped with the current version `"1.0.0"`. -/
theorem load_config_stale_version_migration (old : List (String × PyVal))
    (hver : validate_version (pyGet old "_version" (.str "0.0.0")) = false)
    (hnd : (old.map Prod.fst).Nodup) :
    ((migrate_config old).map Prod.fst = default_config.map Prod.fst ∧
     (∀ k v, lookupPy old k = some v → containsKey default_config k = true →
        pyStartsWithUnderscore k = false → lookupPy (migrate_config old) k = some v) ∧
     (∀ k, lookupPy old k = none ∨ containsKey default_config k = false ∨
        pyStartsWithUnderscore k = true →
        lookupPy (migrate_config old) k = lookupPy default_config k)) ∧
    (validate configSchema (migrate_config old) = .ok true →
        load_config (some old) =
          { config := migrate_config old,
            savedFile := some (pySetItem (migrate_config old) "_version" (.str "1.0.0")),
            raised := none }) := by
  refine ⟨⟨migrate_fold_keys old default_config, ?_, ?_⟩, ?_⟩
  · intro k v hold hdef hpriv
    unfold migrate_config
    rw [migrate_fold_lookup old default_config k hnd, hold, hdef, hpriv]
    rfl
  · intro k hcase
    unfold migrate_config
    rw [migrate_fold_lookup old default_config k hnd]
    rcases hcase with h | h | h
    · rw [h]
    · rw [h]
      cases hold : lookupPy old k with
      | none => rfl
      | some w => rfl
    · rw [h]
      cases hold : lookupPy old k with
      | none => rfl
      | some w => simp
  · intro hval
    have hcfg : (if validate_version (pyGet old "_version" (PyVal.str "0.0.0")) = true
        then old else migrate_config old) = migrate_config old := by
      rw [hver]
      simp
    unfold load_config
    simp only [hcfg, hval]

theorem load_config_stale_version_migration_witness :
    load_config (some [("_version", PyVal.str "0.5.0"),
        ("injection", PyVal.dict
          [("default_method", .str "code_cave"), ("encryption_type", .str "rc4"),
           ("obfuscation_level", .str "high")]),
        ("process", PyVal.dict
          [("refresh_interval", .int 10), ("show_system_processes", .bool true)])]) =
      { config := migrate_config [("_version", PyVal.str "0.5.0"),
          ("injection", PyVal.dict
            [("default_method", .str "code_cave"), ("encryption_type", .str "rc4"),
             ("obfuscation_level", .str "high")]),
          ("process", PyVal.dict
            [("refresh_interval", .int 10), ("show_system_processes", .bool true)])],
        savedFile := some (pySetItem (migrate_config [("_version", PyVal.str "0.5.0"),
          ("injection", PyVal.dict
            [("default_method", .str "code_cave"), ("encryption_type", .str "rc4"),
             ("obfuscation_level", .str "high")]),
          ("process", PyVal.dict
            [("refresh_interval", .int 10), ("show_system_processes", .bool true)])])
          "_version" (.str "1.0.0")),
        raised := none } :=
  (load_config_stale_version_migration
    [("_version", PyVal.str "0.5.0"),
     ("injection", PyVal.dict
       [("default_method", .str "code_cave"), ("encryption_type", .str "rc4"),
        ("obfuscation_level", .str "high")]),
     ("process", PyVal.dict
       [("refresh_interval", .int 10), ("show_system_processes", .bool true)])]
    rfl (by decide)).2 rfl

end Config

namespace ToolBase

/-- C1: calling `execute` while the status is not `ready` raises an
`OperationError` naming the tool and the current status, leaves the state
unchanged and never invokes `_execute`; when the status is `ready`, the
trace sets the status to `running` before invoking `_execute`, the status
reverts to `ready` on success (returning `_execute`'s result), and on an
exception the status becomes `error`, the exception is stored as the last
error, and it is re-raised. -/
theorem execute_status_protocol {α : Type} (name : String) (st : ToolState)
    (res : Except PyExc α) :
    (st.status ≠ ToolStatus.ready →
        execute name st res =
          (.error (.operationError (executeGuardMsg name st.status)), st, []) ∧
        executeGuardMsg name st.status =
          "工具 " ++ name ++ " 状态不正确: " ++ st.status.pyStr ∧
        ExecEvent.invokeExec ∉ (execute name st res).2.2) ∧
    (st.status = ToolStatus.ready →
        (∀ v, res = .ok v →
            execute name st res =
              (.ok v, { st with status := .ready },
               [.setStatus .running, .progressStart, .invokeExec, .setStatus .ready])) ∧
        (∀ e, res = .error e →
            execute name st res =
              (.error e, { status := .error, lastError := some e },
               [.setStatus .running, .progressStart, .invokeExec, .setStatus .error]))) := by
  constructor
  · intro hne
    have heq : execute name st res =
        (.error (.operationError (executeGuardMsg name st.status)), st, []) := by
      unfold execute
      rw [if_pos hne]
    refine ⟨heq, rfl, ?_⟩
    rw [heq]
    simp
  · intro hready
    constructor
    · rintro v rfl
      unfold execute
      rw [if_neg (by simp [hready])]
    · rintro e rfl
      unfold execute
      rw [if_neg (by simp [hready])]

theorem execute_status_protocol_witness :
    (execute "pe_injector" ⟨ToolStatus.uninitialized, none⟩ (.ok (0 : Nat)) =
        (.error (.operationError
            (executeGuardMsg "pe_injector" ToolStatus.uninitialized)),
         ⟨ToolStatus.uninitialized, none⟩, [])) ∧
    (execute "pe_injector" ⟨ToolStatus.ready, none⟩ (.ok (0 : Nat)) =
        (.ok 0, ⟨ToolStatus.ready, none⟩,
         [.setStatus .running, .progressStart, .invokeExec, .setStatus .ready])) :=
  ⟨((execute_status_protocol "pe_injector" ⟨ToolStatus.uninitialized, none⟩
        (.ok 0)).1 (by decide)).1,
   ((execute_status_protocol "pe_injector" ⟨ToolStatus.ready, none⟩
        (.ok 0)).2 rfl).1 0 rfl⟩

end ToolBase

namespace ProcessInjector

/-- C8: whenever `OpenProcess` returned a non-null handle, `inject` calls
`CloseHandle` on that handle on every exit path — as the last OS action of
the `try/finally` — whether the body succeeds or any later step fails and
its exception propagates. -/
theorem inject_closes_handle (h pid : Nat) (cfg : InjectCfg) (out : InjectOutcomes)
    (hh : h ≠ 0) :
    WinEvent.closeHandle h ∈ (injectFromOpen h pid cfg out).2 ∧
    (injectFromOpen h pid cfg out).2.getLast? = some (.closeHandle h) := by
  unfold injectFromOpen
  rw [if_neg hh]
  constructor
  · show WinEvent.closeHandle h ∈ (injectTryBody cfg out).2 ++ [WinEvent.closeHandle h]
    exact List.mem_append_right _ (List.mem_singleton_self _)
  · show ((injectTryBody cfg out).2 ++ [WinEvent.closeHandle h]).getLast? =
      some (WinEvent.closeHandle h)
    exact List.getLast?_concat _

theorem inject_closes_handle_witness :
    WinEvent.closeHandle 42 ∈
      (injectFromOpen 42 7 ⟨false, false⟩ ⟨.ok (), 0, true, true, .ok ()⟩).2 ∧
    WinEvent.closeHandle 42 ∈
      (injectFromOpen 42 7 ⟨true, true⟩ ⟨.ok (), 4096, true, true, .ok ()⟩).2 :=
  ⟨(inject_closes_handle 42 7 ⟨false, false⟩ ⟨.ok (), 0, true, true, .ok ()⟩
      (by decide)).1,
   (inject_closes_handle 42 7 ⟨true, true⟩ ⟨.ok (), 4096, true, true, .ok ()⟩
      (by decide)).1⟩

end ProcessInjector

namespace PluginManager

/-- C2: unloading a loaded plugin `A` on which some cached metadata entry
depends fails with a `PluginError` whose message names the dependents
(every loaded plugin whose cached metadata lists `A` is among them) and
leaves the state — in particular `A`'s registry entry — unchanged; when no
cached metadata lists `A` as a dependency, `unload_plugin` calls `A`'s
cleanup, removes `A` from the registry, the metadata cache and the
file-watch table, and returns `true`. -/
theorem unload_plugin_dependency_guard (st : PMState) (A : String)
    (cleanupRes : Except PyExc Unit) (hA : st.plugins.contains A = true) :
    (find_dependent_plugins st A ≠ [] →
        unload_plugin st A cleanupRes =
          (.error (.pluginError
              (unloadFailMsg A (blockedMsg A (find_dependent_plugins st A)))),
           st, [.logUnload A false]) ∧
        (∀ B deps, (B, deps) ∈ st.metadataCache → deps.contains A = true →
            B ∈ find_dependent_plugins st A) ∧
        A ∈ (unload_plugin st A cleanupRes).2.1.plugins) ∧
    (find_dependent_plugins st A = [] → cleanupRes = .ok () →
        unload_plugin st A cleanupRes =
          (.ok true,
           { plugins := st.plugins.filter (fun n => !(n == A)),
             metadataCache := st.metadataCache.filter (fun p => !(p.1 == A)),
             fileWatchers := st.fileWatchers.filter (fun n => !(n == A)) },
           [.cleanupCall A, .logUnload A true]) ∧
        A ∉ (unload_plugin st A cleanupRes).2.1.plugins ∧
        (∀ deps, (A, deps) ∉ (unload_plugin st A cleanupRes).2.1.metadataCache) ∧
        A ∉ (unload_plugin st A cleanupRes).2.1.fileWatchers ∧
        PMEvent.cleanupCall A ∈ (unload_plugin st A cleanupRes).2.2) := by
  constructor
  · intro hdeps
    have heq : unload_plugin st A cleanupRes =
        (.error (.pluginError
            (unloadFailMsg A (blockedMsg A (find_dependent_plugins st A)))),
         st, [.logUnload A false]) := by
      unfold unload_plugin
      rw [if_pos hA, if_neg (by simpa [List.isEmpty_iff] using hdeps)]
    refine ⟨heq, ?_, ?_⟩
    · intro B deps hmem hdep
      unfold find_dependent_plugins
      exact List.mem_map.2 ⟨(B, deps), List.mem_filter.2 ⟨hmem, hdep⟩, rfl⟩
    · rw [heq]
      simpa using hA
  · intro hdeps hclean
    subst hclean
    have heq : unload_plugin st A (.ok ()) =
        (.ok true,
         { plugins := st.plugins.filter (fun n => !(n == A)),
           metadataCache := st.metadataCache.filter (fun p => !(p.1 == A)),
           fileWatchers := st.fileWatchers.filter (fun n => !(n == A)) },
         [.cleanupCall A, .logUnload A true]) := by
      unfold unload_plugin
      rw [if_pos hA, if_pos (by simpa [List.isEmpty_iff] using hdeps)]
    refine ⟨heq, ?_, ?_, ?_, ?_⟩
    · rw [heq]
      simp [List.mem_filter]
    · intro deps
      rw [heq]
      simp [List.mem_filter]
    · rw [heq]
      simp [List.mem_filter]
    · rw [heq]
      simp

theorem unload_plugin_dependency_guard_witness :
    (unload_plugin ⟨["A", "B"], [("A", []), ("B", ["A"])], ["A", "B"]⟩ "A" (.ok ())).1 =
      .error (.pluginError (unloadFailMsg "A" (blockedMsg "A" ["B"]))) ∧
    (unload_plugin ⟨["A"], [("A", [])], ["A"]⟩ "A" (.ok ())).1 = .ok true := by
  have h1 := (unload_plugin_dependency_guard
      ⟨["A", "B"], [("A", []), ("B", ["A"])], ["A", "B"]⟩ "A" (.ok ())
      (by decide)).1 (by decide)
  have h2 := (unload_plugin_dependency_guard ⟨["A"], [("A", [])], ["A"]⟩ "A" (.ok ())
      (by decide)).2 (by decide) rfl
  exact ⟨by rw [h1.1]; try rfl, by rw [h2.1]; try rfl⟩

end PluginManager
